import Mathlib

/-!
Verification of the `dashboard` repository's item-store and grouping logic.

The development shallowly embeds the Go code:
* `pkg/itemstore/itemstore.go`: `Item`, `Item.Validate`, `New`, `ItemStore.Filter`,
  `ItemStore.GetUniqueValues`;
* `main.go`: `getPropertyGetter` and `groupItems` (the revision producing a
  `[]GroupedItems` sorted by `GroupName`).

Go maps are embedded as association lists (filter sets) or denoted by their
observable, order-independent result (grouping, unique values); machine strings
are Lean `String`s and `strings.TrimSpace` is modelled character-wise.
-/

namespace Dashboard

/-- Embeds `Item` from `pkg/itemstore/itemstore.go`: an item with an integer id
and three string attributes. -/
structure Item where
  ID : Int
  Color : String
  Shape : String
  Category : String
deriving DecidableEq

/-- Model of Go `strings.TrimSpace`: removes leading and trailing whitespace
characters from a string. -/
def trimSpace (s : String) : String :=
  ⟨((s.data.dropWhile Char.isWhitespace).reverse.dropWhile Char.isWhitespace).reverse⟩

/-- The two failure reasons `Item.Validate` can report in
`pkg/itemstore/itemstore.go`: `"invalid item ID: %d"` and
`"item %d has empty fields"`. -/
inductive ValidationError where
  | invalidID (id : Int)
  | emptyFields (id : Int)
deriving DecidableEq

/-- Embeds `Item.Validate` from `pkg/itemstore/itemstore.go`.  The Go method has
a value receiver: the `strings.TrimSpace` assignments mutate only the local
copy, so validation checks the trimmed attributes but the caller's item is
unchanged.  `none` means the item is valid. -/
def Validate (i : Item) : Option ValidationError :=
  if i.ID ≤ 0 then some (.invalidID i.ID)
  else if trimSpace i.Color = "" ∨ trimSpace i.Shape = "" ∨ trimSpace i.Category = "" then
    some (.emptyFields i.ID)
  else none

/-- The error `New` returns: `"invalid item at index %d: %w"`, wrapping the
validation error of the record at that index. -/
inductive NewError where
  | invalidAt (index : Nat) (err : ValidationError)
deriving DecidableEq

/-- Embeds `ItemStore` from `pkg/itemstore/itemstore.go`: it holds the item
slice it was constructed with. -/
structure ItemStore where
  items : List Item
deriving DecidableEq

/-- The validation loop of `New`: walks the input slice in order with its index
and returns the first validation failure, or `none` when every item is valid. -/
def validateFrom (idx : Nat) : List Item → Option NewError
  | [] => none
  | i :: rest =>
    match Validate i with
    | some e => some (.invalidAt idx e)
    | none => validateFrom (idx + 1) rest

/-- Embeds `New` from `pkg/itemstore/itemstore.go`: validates every item in
order; on the first invalid item fails with the index-carrying error, otherwise
returns a store holding the given items. -/
def New (items : List Item) : Except NewError ItemStore :=
  match validateFrom 0 items with
  | some e => .error e
  | none => .ok ⟨items⟩

/-- One step of the inner filter loop of `ItemStore.Filter`: the `switch` on the
filter key.  A key that is not `color`, `shape` or `category` falls through the
`switch` without any check, so it never rejects the item (`true`). -/
def matchesFilter (item : Item) (kv : String × String) : Bool :=
  if kv.1 = "color" then item.Color == kv.2
  else if kv.1 = "shape" then item.Shape == kv.2
  else if kv.1 = "category" then item.Category == kv.2
  else true

/-- Embeds `ItemStore.Filter` from `pkg/itemstore/itemstore.go`.  The Go map of
filters is embedded as an association list; the labelled `ItemLoop` with
`continue ItemLoop` on the first failing entry keeps an item exactly when every
filter entry matches, which is order-independent, so the map's arbitrary
iteration order is irrelevant.  An empty filter map returns a copy of the item
slice. -/
def Filter (s : ItemStore) (filters : List (String × String)) : List Item :=
  if filters.isEmpty then s.items
  else s.items.filter (fun item => filters.all (matchesFilter item))

/-- The `switch property` of `GetUniqueValues` in `pkg/itemstore/itemstore.go`,
selecting an item's attribute by name; the `default: continue` branch is
`none`. -/
def attrValue (item : Item) (key : String) : Option String :=
  if key = "color" then some item.Color
  else if key = "shape" then some item.Shape
  else if key = "category" then some item.Category
  else none

/-- The recognized attribute keys of the store and of `getPropertyGetter`. -/
def isValidKey (key : String) : Bool :=
  key == "color" || key == "shape" || key == "category"

/-- One step of the first-seen deduplication both `GetUniqueValues` and the
grouping key collection perform: append `v` unless already present (the Go
code tracks presence with a set alongside the result slice). -/
def addUnique (acc : List String) (v : String) : List String :=
  if v ∈ acc then acc else acc ++ [v]

/-- The item loop of `GetUniqueValues`: for each item take the attribute chosen
by the `switch` (skipping items when the property is unrecognized, via
`default: continue`) and append it to the result the first time it is seen. -/
def uniqueLoop (property : String) : List Item → List String → List String
  | [], result => result
  | item :: rest, result =>
    match attrValue item property with
    | none => uniqueLoop property rest result
    | some v => uniqueLoop property rest (addUnique result v)

/-- Denotation of Go `sort.Strings`: sort ascending by the string order. -/
def sortStrings (l : List String) : List String :=
  l.insertionSort (· ≤ ·)

/-- Embeds `ItemStore.GetUniqueValues` from `pkg/itemstore/itemstore.go`:
collect each attribute value the first time it is seen, then `sort.Strings`
the result. -/
def GetUniqueValues (s : ItemStore) (property : String) : List String :=
  sortStrings (uniqueLoop property s.items [])

/-- Embeds `GroupedItems` from `main.go`. -/
structure GroupedItems where
  GroupName : String
  Property : String
  Items : List Item
deriving DecidableEq

/-- Embeds `getPropertyGetter` from `main.go`: resolves a property name to the
corresponding accessor, or reports failure for any other name. -/
def getPropertyGetter (property : String) : Option (Item → String) :=
  if property = "color" then some (fun i => i.Color)
  else if property = "shape" then some (fun i => i.Shape)
  else if property = "category" then some (fun i => i.Category)
  else none

/-- The distinct getter values of a list of items, in first-seen order: this is
exactly the key set of the `groupMap` that `groupItems` builds by scanning the
items in order. -/
def distinctVals (getter : Item → String) (items : List Item) : List String :=
  (items.map getter).foldl addUnique []

/-- Embeds `groupItems` from `main.go` (the revision returning a sorted
`[]GroupedItems`).  For an unrecognized key it returns the single `"All Items"`
group holding every item.  Otherwise the Go code builds `groupMap` by scanning
the items in order — so the bucket of key `v` is `items.filter (getter · == v)`
— collects the groups in the map's arbitrary iteration order, and sorts them by
`GroupName` with `sort.Slice`.  Because the keys are pairwise distinct, the
sorted result is the same for every iteration order: the groups listed by key
in ascending order.  That canonical result is the denotation used here. -/
def groupItems (items : List Item) (groupBy : String) : List GroupedItems :=
  match getPropertyGetter groupBy with
  | none => [⟨"All Items", groupBy, items⟩]
  | some getter =>
    (sortStrings (distinctVals getter items)).map
      (fun v => ⟨v, groupBy, items.filter (fun i => getter i == v)⟩)

/-- The seed list used by `itemstore_test.go`. -/
def testItems : List Item :=
  [⟨1, "red", "circle", "A"⟩, ⟨2, "blue", "square", "A"⟩,
   ⟨3, "red", "square", "B"⟩, ⟨4, "green", "circle", "B"⟩]

/-! ### Helper lemmas -/

theorem mem_addUnique {acc : List String} {v x : String} :
    x ∈ addUnique acc v ↔ x ∈ acc ∨ x = v := by
  unfold addUnique
  split
  · next h => exact ⟨Or.inl, fun hx => hx.elim id (fun hv => hv ▸ h)⟩
  · simp

theorem nodup_addUnique {acc : List String} {v : String} (h : acc.Nodup) :
    (addUnique acc v).Nodup := by
  unfold addUnique
  split
  · exact h
  · next hv =>
    exact h.append (List.nodup_singleton v)
      (fun x hx hxv => hv ((List.mem_singleton.mp hxv) ▸ hx))

theorem mem_foldl_addUnique (l : List String) (acc : List String) (x : String) :
    x ∈ l.foldl addUnique acc ↔ x ∈ acc ∨ x ∈ l := by
  induction l generalizing acc with
  | nil => simp
  | cons a l ih =>
    rw [List.foldl_cons, ih]
    simp [mem_addUnique]
    tauto

theorem nodup_foldl_addUnique (l : List String) (acc : List String) (h : acc.Nodup) :
    (l.foldl addUnique acc).Nodup := by
  induction l generalizing acc with
  | nil => simpa
  | cons a l ih => exact ih _ (nodup_addUnique h)

theorem mem_uniqueLoop (p : String) (l : List Item) (acc : List String) (x : String) :
    x ∈ uniqueLoop p l acc ↔ x ∈ acc ∨ ∃ i ∈ l, attrValue i p = some x := by
  induction l generalizing acc with
  | nil => simp [uniqueLoop]
  | cons a l ih =>
    cases h : attrValue a p with
    | none => rw [uniqueLoop, h, ih]; simp [h]
    | some v => rw [uniqueLoop, h, ih]; simp [h, mem_addUnique]; tauto

theorem nodup_uniqueLoop (p : String) (l : List Item) (acc : List String) (h : acc.Nodup) :
    (uniqueLoop p l acc).Nodup := by
  induction l generalizing acc with
  | nil => simpa [uniqueLoop]
  | cons a l ih =>
    cases hv : attrValue a p with
    | none => rw [uniqueLoop, hv]; exact ih _ h
    | some v => rw [uniqueLoop, hv]; exact ih _ (nodup_addUnique h)

theorem sortStrings_perm (l : List String) : List.Perm (sortStrings l) l :=
  List.perm_insertionSort _ l

theorem sortStrings_sorted (l : List String) : (sortStrings l).Sorted (· ≤ ·) :=
  List.sorted_insertionSort _ l

theorem sortStrings_sorted_lt {l : List String} (h : l.Nodup) :
    (sortStrings l).Sorted (· < ·) :=
  (sortStrings_sorted l).lt_of_le ((sortStrings_perm l).nodup_iff.mpr h)

theorem matchesFilter_of_invalid {kv : String × String} (item : Item)
    (h : isValidKey kv.1 = false) : matchesFilter item kv = true := by
  simp only [isValidKey, Bool.or_eq_false_iff, beq_eq_false_iff_ne, ne_eq] at h
  simp [matchesFilter, h.1.1, h.1.2, h.2]

theorem matchesFilter_of_valid {kv : String × String} (item : Item)
    (h : isValidKey kv.1 = true) :
    matchesFilter item kv = decide (attrValue item kv.1 = some kv.2) := by
  obtain ⟨k, v⟩ := kv
  simp only [isValidKey, Bool.or_eq_true, beq_iff_eq] at h
  obtain (rfl | rfl) | rfl := h
  · by_cases hc : item.Color = v <;> simp [matchesFilter, attrValue, hc]
  · by_cases hc : item.Shape = v <;> simp [matchesFilter, attrValue, hc]
  · by_cases hc : item.Category = v <;> simp [matchesFilter, attrValue, hc]

theorem all_matches_valid (item : Item) :
    ∀ (F : List (String × String)), (∀ kv ∈ F, isValidKey kv.1 = true) →
      F.all (matchesFilter item) = F.all (fun kv => decide (attrValue item kv.1 = some kv.2))
  | [], _ => rfl
  | kv :: F, hkeys => by
    rw [List.all_cons, List.all_cons,
      matchesFilter_of_valid item (hkeys kv (List.mem_cons_self ..)),
      all_matches_valid item F (fun k hk => hkeys k (List.mem_cons_of_mem _ hk))]

theorem all_matches_restrict (item : Item) (F : List (String × String)) :
    F.all (matchesFilter item) = (F.filter (fun kv => isValidKey kv.1)).all (matchesFilter item) := by
  induction F with
  | nil => rfl
  | cons kv F ih =>
    cases hk : isValidKey kv.1 with
    | false =>
      rw [List.all_cons, matchesFilter_of_invalid item hk, Bool.true_and, ih]
      simp [List.filter_cons, hk]
    | true =>
      rw [List.all_cons, ih]
      simp [List.filter_cons, hk]

theorem attrValue_of_invalid {key : String} (i : Item) (h : isValidKey key = false) :
    attrValue i key = none := by
  simp only [isValidKey, Bool.or_eq_false_iff, beq_eq_false_iff_ne, ne_eq] at h
  simp [attrValue, h.1.1, h.1.2, h.2]

theorem uniqueLoop_of_invalid {key : String} (l : List Item) (acc : List String)
    (h : isValidKey key = false) : uniqueLoop key l acc = acc := by
  induction l with
  | nil => rfl
  | cons a l ih => rw [uniqueLoop, attrValue_of_invalid a h]; exact ih

theorem validateFrom_eq_none {idx : Nat} {l : List Item} (h : validateFrom idx l = none) :
    ∀ i ∈ l, Validate i = none := by
  induction l generalizing idx with
  | nil => simp
  | cons a l ih =>
    rw [validateFrom] at h
    cases hv : Validate a with
    | some e => rw [hv] at h; exact absurd h (by simp)
    | none =>
      rw [hv] at h
      intro i hi
      rcases List.mem_cons.mp hi with rfl | hi
      · exact hv
      · exact ih h i hi

theorem of_new_ok {items : List Item} {s : ItemStore} (h : New items = .ok s) :
    s = ⟨items⟩ ∧ ∀ i ∈ items, Validate i = none := by
  rw [New] at h
  cases hv : validateFrom 0 items with
  | some e => rw [hv] at h; cases h
  | none =>
    rw [hv] at h
    cases h
    exact ⟨rfl, validateFrom_eq_none hv⟩

theorem validate_none_iff (i : Item) :
    Validate i = none ↔
      0 < i.ID ∧ trimSpace i.Color ≠ "" ∧ trimSpace i.Shape ≠ "" ∧ trimSpace i.Category ≠ "" := by
  rw [Validate]
  split
  · next h1 =>
    constructor
    · intro hc; exact absurd hc (by simp)
    · intro hc; exact absurd h1 (not_le.mpr hc.1)
  · next h1 =>
    split
    · next h2 =>
      constructor
      · intro hc; exact absurd hc (by simp)
      · rintro ⟨-, hc, hs, hcat⟩
        rcases h2 with h | h | h
        · exact absurd h hc
        · exact absurd h hs
        · exact absurd h hcat
    · next h2 =>
      push_neg at h2
      exact iff_of_true rfl ⟨not_le.mp h1, h2.1, h2.2.1, h2.2.2⟩

theorem validateFrom_append (idx : Nat) (pre : List Item) (bad : Item) (rest : List Item)
    (e : ValidationError) (hpre : ∀ i ∈ pre, Validate i = none) (hbad : Validate bad = some e) :
    validateFrom idx (pre ++ bad :: rest) = some (.invalidAt (idx + pre.length) e) := by
  induction pre generalizing idx with
  | nil => rw [List.nil_append, validateFrom, hbad]; rfl
  | cons a pre ih =>
    have ha : Validate a = none := hpre a (List.mem_cons_self ..)
    rw [List.cons_append, validateFrom, ha,
      ih (idx + 1) (fun i hi => hpre i (List.mem_cons_of_mem _ hi))]
    have : idx + 1 + pre.length = idx + (a :: pre).length := by simp; omega
    rw [this]

/-! ### Claim theorems -/

/-- Claim C1: for every store `S` and every non-empty filter set `F` whose keys are
all valid attribute keys, `Filter S F` returns exactly those records of `S`, in
original store order, whose attribute value equals `F`'s value for every key of
`F` — stated as an equality with the specification-side filter, which also gives
that every omitted record fails at least one entry of `F`. -/
theorem filter_matches_exactly (s : ItemStore) (F : List (String × String))
    (hne : F ≠ []) (hkeys : ∀ kv ∈ F, isValidKey kv.1 = true) :
    Filter s F = s.items.filter (fun r => F.all (fun kv => decide (attrValue r kv.1 = some kv.2))) := by
  have hemp : F.isEmpty = false := by simpa using hne
  rw [Filter, hemp]
  simp only [Bool.false_eq_true, if_false]
  exact List.filter_congr (fun item _ => all_matches_valid item F hkeys)

/-- Witness for C1 at the test seed with `F = {color: red}`. -/
theorem filter_matches_exactly_witness :
    Filter ⟨testItems⟩ [("color", "red")] =
      testItems.filter (fun r => [("color", "red")].all (fun kv => decide (attrValue r kv.1 = some kv.2))) :=
  filter_matches_exactly ⟨testItems⟩ [("color", "red")] (by decide) (by decide)

/-- Claim C2: an entry of the filter set whose key is not one of `color`,
`shape`, `category` imposes no constraint: filtering with `F` returns the same
records as filtering with `F` restricted to recognized keys. -/
theorem filter_ignores_unrecognized_keys (s : ItemStore) (F : List (String × String)) :
    Filter s F = Filter s (F.filter (fun kv => isValidKey kv.1)) := by
  by_cases hF : F.isEmpty
  · have : F = [] := by simpa using hF
    rw [this]
    rfl
  · have hne : F.isEmpty = false := by simpa using hF
    by_cases hR : (F.filter (fun kv => isValidKey kv.1)).isEmpty
    · have hr : F.filter (fun kv => isValidKey kv.1) = [] := by simpa using hR
      rw [Filter, hne, Filter, hr]
      simp only [Bool.false_eq_true, if_false, List.isEmpty_nil, if_true]
      have hall : ∀ kv ∈ F, isValidKey kv.1 = false := by
        intro kv hkv
        have := List.filter_eq_nil_iff.mp hr kv hkv
        simpa using this
      refine List.filter_eq_self.mpr (fun item _ => ?_)
      rw [List.all_eq_true]
      exact fun kv hkv => matchesFilter_of_invalid item (hall kv hkv)
    · have hrne : (F.filter (fun kv => isValidKey kv.1)).isEmpty = false := by simpa using hR
      rw [Filter, hne, Filter, hrne]
      simp only [Bool.false_eq_true, if_false]
      exact List.filter_congr (fun item _ => all_matches_restrict item F)

/-- Claim C3: for every input record list and every group-by string, the
grouping result is sorted by group key with strictly increasing keys (so no two
groups share a key), making the output deterministic and reproducible. -/
theorem groupItems_groups_sorted (items : List Item) (groupBy : String) :
    (groupItems items groupBy).Pairwise (fun g1 g2 => g1.GroupName < g2.GroupName) := by
  rw [groupItems]
  cases h : getPropertyGetter groupBy with
  | none => simp
  | some getter =>
    rw [List.pairwise_map]
    exact sortStrings_sorted_lt (nodup_foldl_addUnique _ _ List.nodup_nil)

/-- Claim C4: for every record list and every group-by string that is not a
recognized attribute key, grouping returns exactly one group keyed by the
`"All Items"` sentinel holding the entire list in order. -/
theorem groupItems_invalid_key (items : List Item) (groupBy : String)
    (h : isValidKey groupBy = false) :
    groupItems items groupBy = [⟨"All Items", groupBy, items⟩] := by
  simp only [isValidKey, Bool.or_eq_false_iff, beq_eq_false_iff_ne, ne_eq] at h
  have hg : getPropertyGetter groupBy = none := by
    simp [getPropertyGetter, h.1.1, h.1.2, h.2]
  rw [groupItems, hg]

/-- Witness for C4 at the test seed with the unrecognized key `"bogus"`. -/
theorem groupItems_invalid_key_witness :
    groupItems testItems "bogus" = [⟨"All Items", "bogus", testItems⟩] :=
  groupItems_invalid_key testItems "bogus" (by decide)

/-- Counterexample to claim C5: construction succeeds on an item whose color
`" red"` carries leading whitespace and stores the string verbatim — the stored
attribute is not whitespace-trimmed (`Validate` trims only its local copy). -/
theorem new_stores_untrimmed_whitespace :
    New [⟨1, " red", "circle", "A"⟩] = .ok ⟨[⟨1, " red", "circle", "A"⟩]⟩ ∧
    trimSpace " red" ≠ " red" := ⟨rfl, by decide⟩

/-- Claim C5 as amended: every record held by a successfully constructed store
has a positive id and color, shape and category that are non-empty after
whitespace-trimming; the stored strings themselves are kept verbatim. -/
theorem new_ok_record_invariant (items : List Item) (s : ItemStore) (h : New items = .ok s) :
    ∀ r ∈ s.items,
      0 < r.ID ∧ trimSpace r.Color ≠ "" ∧ trimSpace r.Shape ≠ "" ∧ trimSpace r.Category ≠ "" := by
  obtain ⟨rfl, hall⟩ := of_new_ok h
  intro r hr
  exact (validate_none_iff r).mp (hall r hr)

/-- Witness for the amended C5 at the test seed's first record. -/
theorem new_ok_record_invariant_witness :
    0 < (Item.mk 1 "red" "circle" "A").ID ∧
    trimSpace (Item.mk 1 "red" "circle" "A").Color ≠ "" ∧
    trimSpace (Item.mk 1 "red" "circle" "A").Shape ≠ "" ∧
    trimSpace (Item.mk 1 "red" "circle" "A").Category ≠ "" :=
  new_ok_record_invariant testItems ⟨testItems⟩ rfl ⟨1, "red", "circle", "A"⟩ (by decide)

/-- Counterexample to claim C6: construction accepts a seed whose two records
share id `1`, so a successfully constructed store may hold records with equal
ids — `New` performs no cross-record uniqueness check. -/
theorem new_accepts_duplicate_ids :
    New [⟨1, "red", "circle", "A"⟩, ⟨1, "blue", "square", "B"⟩] =
      .ok ⟨[⟨1, "red", "circle", "A"⟩, ⟨1, "blue", "square", "B"⟩]⟩ ∧
    (Item.mk 1 "red" "circle" "A").ID = (Item.mk 1 "blue" "square" "B").ID :=
  ⟨rfl, rfl⟩

/-- Claim C6 as amended: in every successfully constructed store each record's
id is positive, but ids need not be pairwise distinct — construction does not
reject duplicate ids. -/
theorem new_ok_ids_positive (items : List Item) (s : ItemStore) (h : New items = .ok s) :
    ∀ r ∈ s.items, 0 < r.ID := by
  obtain ⟨rfl, hall⟩ := of_new_ok h
  intro r hr
  exact ((validate_none_iff r).mp (hall r hr)).1

/-- Witness for the amended C6 at the test seed's first record. -/
theorem new_ok_ids_positive_witness : 0 < (Item.mk 1 "red" "circle" "A").ID :=
  new_ok_ids_positive testItems ⟨testItems⟩ rfl ⟨1, "red", "circle", "A"⟩ (by decide)

/-- Claim C7: `New` validates every record in order and fails at the first
invalid record with an error naming that record's index and the validation
reason, yielding no store. -/
theorem new_fails_at_first_invalid (pre : List Item) (bad : Item) (rest : List Item)
    (e : ValidationError) (hpre : ∀ i ∈ pre, Validate i = none) (hbad : Validate bad = some e) :
    New (pre ++ bad :: rest) = .error (.invalidAt pre.length e) := by
  rw [New, validateFrom_append 0 pre bad rest e hpre hbad]
  simp

/-- Witness for C7: the seed whose record at index 0 has id 0 fails with the
index-0, invalid-id error. -/
theorem new_fails_at_first_invalid_witness :
    New [⟨0, "red", "circle", "A"⟩] = .error (.invalidAt 0 (.invalidID 0)) := by
  have := new_fails_at_first_invalid [] ⟨0, "red", "circle", "A"⟩ [] (.invalidID 0)
    (by simp) (by decide)
  simpa using this

/-- Claim C8: `GetUniqueValues` returns a strictly ascending (hence
duplicate-free) list whose members are exactly the values the requested
attribute takes across the stored records; an unrecognized key yields the empty
sequence. -/
theorem getUniqueValues_spec (s : ItemStore) (key : String) :
    (GetUniqueValues s key).Sorted (· < ·) ∧
    (∀ v, v ∈ GetUniqueValues s key ↔ ∃ r ∈ s.items, attrValue r key = some v) ∧
    (isValidKey key = false → GetUniqueValues s key = []) := by
  refine ⟨sortStrings_sorted_lt (nodup_uniqueLoop _ _ _ List.nodup_nil), ?_, ?_⟩
  · intro v
    rw [GetUniqueValues, (sortStrings_perm _).mem_iff, mem_uniqueLoop]
    simp
  · intro h
    rw [GetUniqueValues, uniqueLoop_of_invalid _ _ h]
    rfl

/-- Witness for C8: the unrecognized key `"bogus"` yields the empty sequence on
the test seed. -/
theorem getUniqueValues_spec_witness : GetUniqueValues ⟨testItems⟩ "bogus" = [] :=
  (getUniqueValues_spec ⟨testItems⟩ "bogus").2.2 (by decide)

/-- Claim C9: filtering with the empty filter set returns the store contents
unchanged — same records, same order, same length (the Go code returns a fresh
copy of the slice; in this pure embedding the copy is observationally the item
list itself). -/
theorem filter_empty_returns_all (s : ItemStore) : Filter s [] = s.items := rfl

/-- Claim C10: for a recognized group-by key, every produced group is non-empty,
each member's attribute value equals the group's key, and the number of groups
equals the number of distinct values the attribute takes across the input — in
particular the single-sentinel fallback shape never occurs. -/
theorem groupItems_valid_key_spec (items : List Item) (groupBy : String)
    (getter : Item → String) (h : getPropertyGetter groupBy = some getter) :
    (∀ g ∈ groupItems items groupBy,
        g.Items ≠ [] ∧ ∀ r ∈ g.Items, getter r = g.GroupName) ∧
    (groupItems items groupBy).length = (items.map getter).toFinset.card := by
  rw [groupItems, h]
  constructor
  · intro g hg
    obtain ⟨v, hv, rfl⟩ := List.mem_map.mp hg
    have hvmem : v ∈ items.map getter := by
      have := (sortStrings_perm _).mem_iff.mp hv
      simpa using (mem_foldl_addUnique (items.map getter) [] v).mp this
    obtain ⟨i, hi, hgi⟩ := List.mem_map.mp hvmem
    constructor
    · exact List.ne_nil_of_mem (List.mem_filter.mpr ⟨hi, by simp [hgi]⟩)
    · intro r hr
      have := (List.mem_filter.mp hr).2
      simpa using this
  · rw [List.length_map, sortStrings, List.length_insertionSort]
    have hnd : (distinctVals getter items).Nodup := nodup_foldl_addUnique _ _ List.nodup_nil
    have hfs : (distinctVals getter items).toFinset = (items.map getter).toFinset := by
      ext x
      simp only [List.mem_toFinset, distinctVals]
      simpa using mem_foldl_addUnique (items.map getter) [] x
    rw [show (distinctVals getter items).length = (distinctVals getter items).toFinset.card from
      (List.toFinset_card_of_nodup hnd).symm, hfs]

/-- Witness for C10: grouping the test seed by `"shape"` yields as many groups
as there are distinct shapes. -/
theorem groupItems_valid_key_spec_witness :
    (groupItems testItems "shape").length = (testItems.map (fun i => i.Shape)).toFinset.card :=
  (groupItems_valid_key_spec testItems "shape" (fun i => i.Shape) rfl).2

end Dashboard
